import Mathlib

/-
Verification of the dcc scan/classify/merge engine (dcc-scout.py, cleanup-tui.py).

Python strings are embedded as `List Char`; Python's non-negative integers
(sizes in bytes, day counts, loose-object counts) as `Nat`; timestamps as `Int`
ordered by time.  Filesystem and subprocess observations (stat results, du
sizes, git count-objects output, access times) are passed in as explicit
function parameters, so every scanner is a pure function of what the program
reads from its environment.
-/

namespace Dcc

/-- Python `str` embedded as a list of characters. -/
abbrev Str := List Char

/-- Coerce a Lean string literal into the `Str` embedding. -/
def strOf (s : String) : Str := s.data

/-- Python `target.count("/")` (count of a single character in a string). -/
def countSep : Str → Nat
  | [] => 0
  | c :: rest => (if c = '/' then 1 else 0) + countSep rest

/-- Python `seen.startswith(target + "/")` (dcc-scout.py line 1287):
`isParentOf t s` holds when `t` followed by a path separator is a prefix of `s`. -/
def isParentOf (t s : Str) : Bool := (t ++ ['/']).isPrefixOf s

/-- Fuel-driven core of Python `str.replace` (all non-overlapping occurrences,
scanning left to right).  The fuel is the string length, which suffices because
every step consumes at least one character when the pattern is non-empty. -/
def strReplaceFuel (pat rep : Str) : Nat → Str → Str
  | 0, s => s
  | Nat.succ fuel, s =>
    match s with
    | [] => []
    | c :: rest =>
      if pat ≠ [] ∧ pat.isPrefixOf (c :: rest) then
        rep ++ strReplaceFuel pat rep fuel ((c :: rest).drop pat.length)
      else
        c :: strReplaceFuel pat rep fuel rest

/-- Python `s.replace(pat, rep)` for a non-empty pattern (the program only ever
replaces non-empty patterns such as the home directory or a namespace tag). -/
def strReplace (s pat rep : Str) : Str := strReplaceFuel pat rep s.length s

/-- Python `pathlib.Path(p).parent` rendered on the string embedding: drop the
final `/`-separated component. -/
def dirname (p : Str) : Str := ((p.reverse.dropWhile (· ≠ '/')).drop 1).reverse

/-- Python `Path(p).expanduser()` on the cases the program uses: a leading `~`
component is replaced by the home directory. -/
def expanduser (home p : Str) : Str :=
  if p = strOf "~" then home
  else if (strOf "~/").isPrefixOf p then home ++ p.tail
  else p

/-- One `{id, reclaim_bytes, reversible}` entry of a finding's `options` list. -/
structure ActionOption where
  id : Str
  reclaim_bytes : Nat
  reversible : Bool
deriving DecidableEq

/-- A finding dict as assembled by `_make_finding` (dcc-scout.py lines 355-383).
The presentation-only fields (`size_human`, `last_modified`, `last_accessed`,
`is_archive`) are metadata echoes of other inputs and are omitted; the
`**extra` keys used by the git phase (`loose_objects`, `gc_potential_bytes`)
and the optional `parent_project` are `Option` fields, `none` when absent. -/
structure Finding where
  target : Str
  category : Str
  size_bytes : Nat
  file_count : Nat
  staleness_days : Nat
  options : List ActionOption
  recommendation : Str
  reason : Str
  parent_project : Option Str
  loose_objects : Option Nat
  gc_potential_bytes : Option Nat
deriving DecidableEq

/-- `_make_finding` (dcc-scout.py lines 355-383): re-expands the target and
re-relativizes it against the home directory, then builds the record. -/
def make_finding (home target category : Str) (size_bytes file_count staleness_days : Nat)
    (reason : Str) (options : List ActionOption) (recommendation : Str)
    (parent_project : Option Str) (loose_objects : Option Nat)
    (gc_potential_bytes : Option Nat) : Finding :=
  let path := expanduser home target
  let target_str := strReplace path home (strOf "~")
  { target := target_str, category := category, size_bytes := size_bytes,
    file_count := file_count, staleness_days := staleness_days,
    options := options, recommendation := recommendation, reason := reason,
    parent_project := parent_project, loose_objects := loose_objects,
    gc_potential_bytes := gc_potential_bytes }

/-- Path depth of a finding's target: `x["target"].count("/")`
(dcc-scout.py line 1279). -/
def depth (f : Finding) : Nat := countSep f.target

/-- The first merge sort key (dcc-scout.py line 1279):
`key=lambda x: (-x["target"].count("/"), -x["size_bytes"])`, ascending and
stable.  `RDepth a b` says `a` may be placed before `b`. -/
def RDepth (a b : Finding) : Prop :=
  depth b < depth a ∨ (depth a = depth b ∧ b.size_bytes ≤ a.size_bytes)

instance : DecidableRel RDepth := fun a b => by
  unfold RDepth; exact inferInstance

instance : IsTotal Finding RDepth := by
  constructor; intro a b; unfold RDepth; omega

instance : IsTrans Finding RDepth := by
  constructor; intro a b c; unfold RDepth; omega

/-- The final merge sort key (dcc-scout.py line 1294):
`key=lambda x: x["size_bytes"], reverse=True`, stable descending. -/
def RSize (a b : Finding) : Prop := b.size_bytes ≤ a.size_bytes

instance : DecidableRel RSize := fun a b => by
  unfold RSize; exact inferInstance

instance : IsTotal Finding RSize := by
  constructor; intro a b; unfold RSize; omega

instance : IsTrans Finding RSize := by
  constructor; intro a b c; unfold RSize; omega

/-- The dedup/nested-path loop of `merge_results` (dcc-scout.py lines 1281-1291):
walk the findings keeping a set `seen` of accepted targets; drop a finding whose
target was already accepted or is a parent (string-prefix-plus-separator) of an
already accepted target. -/
def mergeFilter : List Finding → List Str → List Finding
  | [], _ => []
  | f :: fs, seen =>
    if f.target ∈ seen ∨ ∃ s ∈ seen, isParentOf f.target s = true then
      mergeFilter fs seen
    else
      f :: mergeFilter fs (f.target :: seen)

/-- `merge_results` up to the dedup loop (dcc-scout.py lines 1279-1291): sort by
descending depth then descending size (Python's stable sort is embedded as
`List.insertionSort` with the matching total preorder), then filter. -/
def merge_unique (all_findings : List Finding) : List Finding :=
  mergeFilter (List.insertionSort RDepth all_findings) []

/-- The surviving findings re-sorted by size descending
(dcc-scout.py line 1294). -/
def merge_findings (all_findings : List Finding) : List Finding :=
  List.insertionSort RSize (merge_unique all_findings)

/-- The final report record (dcc-scout.py lines 1298-1304); the wall-clock
fields `generated` and `scan_duration_sec` are environment timestamps and are
omitted. -/
structure Report where
  total_reclaimable_bytes : Nat
  item_count : Nat
  findings : List Finding
deriving DecidableEq

/-- `merge_results` (dcc-scout.py lines 1263-1313) on the concatenation of all
loaded phase finding lists. -/
def merge_results (all_findings : List Finding) : Report :=
  { total_reclaimable_bytes := ((merge_findings all_findings).map Finding.size_bytes).sum,
    item_count := (merge_findings all_findings).length,
    findings := merge_findings all_findings }

/-- Two non-equivalent elements may be ordered-inserted in either order. -/
lemma orderedInsert_comm {α : Type} (r₁ : α → α → Prop) [DecidableRel r₁] [IsTrans α r₁]
    (x y : α) (hxy : r₁ x y) (hyx : ¬ r₁ y x) :
    ∀ m : List α, List.orderedInsert r₁ y (List.orderedInsert r₁ x m)
      = List.orderedInsert r₁ x (List.orderedInsert r₁ y m) := by
  intro m
  induction m with
  | nil => simp [List.orderedInsert, hxy, hyx]
  | cons c cs ih =>
    by_cases hxc : r₁ x c
    · by_cases hyc : r₁ y c
      · simp [List.orderedInsert, hxc, hyc, hxy, hyx]
      · simp [List.orderedInsert, hxc, hyc, hxy, hyx]
    · have hyc : ¬ r₁ y c := fun h => hxc (IsTrans.trans x y c hxy h)
      simp only [List.orderedInsert, if_neg hxc, if_neg hyc]
      rw [ih]

/-- A stable sort by `r₁` absorbs a prior ordered insert by `r₂`, provided
`r₁`-equivalent elements are already in `r₂` order. -/
lemma insertionSort_orderedInsert {α : Type} (r₁ r₂ : α → α → Prop)
    [DecidableRel r₁] [DecidableRel r₂] [IsTotal α r₁] [IsTrans α r₁]
    (hcomp : ∀ a b, r₁ a b → r₁ b a → r₂ a b) (x : α) :
    ∀ m : List α, List.insertionSort r₁ (List.orderedInsert r₂ x m)
      = List.orderedInsert r₁ x (List.insertionSort r₁ m) := by
  intro m
  induction m with
  | nil => simp [List.insertionSort, List.orderedInsert]
  | cons c cs ih =>
    by_cases h2 : r₂ x c
    · simp [List.orderedInsert, h2, List.insertionSort]
    · have hne : ¬ (r₁ x c ∧ r₁ c x) := fun hp => h2 (hcomp x c hp.1 hp.2)
      simp only [List.orderedInsert, if_neg h2, List.insertionSort, ih]
      rcases IsTotal.total (r := r₁) x c with hxc | hcx
      · have hcx' : ¬ r₁ c x := fun h => hne ⟨hxc, h⟩
        exact orderedInsert_comm r₁ x c hxc hcx' _
      · have hxc' : ¬ r₁ x c := fun h => hne ⟨h, hcx⟩
        exact (orderedInsert_comm r₁ c x hcx hxc' _).symm

/-- A stable sort by `r₁` cancels a preceding stable sort by `r₂`, provided
`r₁`-equivalent elements are already in `r₂` order (stability). -/
lemma insertionSort_insertionSort {α : Type} (r₁ r₂ : α → α → Prop)
    [DecidableRel r₁] [DecidableRel r₂] [IsTotal α r₁] [IsTrans α r₁]
    (hcomp : ∀ a b, r₁ a b → r₁ b a → r₂ a b) :
    ∀ l : List α, List.insertionSort r₁ (List.insertionSort r₂ l)
      = List.insertionSort r₁ l := by
  intro l
  induction l with
  | nil => rfl
  | cons x xs ih =>
    calc List.insertionSort r₁ (List.insertionSort r₂ (x :: xs))
        = List.insertionSort r₁ (List.orderedInsert r₂ x (List.insertionSort r₂ xs)) := rfl
      _ = List.orderedInsert r₁ x (List.insertionSort r₁ (List.insertionSort r₂ xs)) :=
          insertionSort_orderedInsert r₁ r₂ hcomp x _
      _ = List.orderedInsert r₁ x (List.insertionSort r₁ xs) := by rw [ih]
      _ = List.insertionSort r₁ (x :: xs) := rfl

/-- The dedup loop only keeps a sublist of its input. -/
lemma mergeFilter_sublist (l : List Finding) :
    ∀ seen : List Str, List.Sublist (mergeFilter l seen) l := by
  induction l with
  | nil => intro seen; simp [mergeFilter]
  | cons f fs ih =>
    intro seen
    by_cases h : f.target ∈ seen ∨ ∃ s ∈ seen, isParentOf f.target s = true
    · simp only [mergeFilter, if_pos h]
      exact (ih seen).cons f
    · simp only [mergeFilter, if_neg h]
      exact (ih _).cons₂ f

/-- Everything the dedup loop keeps was acceptable against the initial
`seen` set: its target is not in `seen` and is not a parent of anything
in `seen`. -/
lemma mergeFilter_not_seen :
    ∀ (l : List Finding) (seen : List Str) (y : Finding), y ∈ mergeFilter l seen →
      y.target ∉ seen ∧ ∀ s ∈ seen, isParentOf y.target s = false := by
  intro l
  induction l with
  | nil => intro seen y hy; simp [mergeFilter] at hy
  | cons f fs ih =>
    intro seen y hy
    by_cases h : f.target ∈ seen ∨ ∃ s ∈ seen, isParentOf f.target s = true
    · rw [mergeFilter, if_pos h] at hy
      exact ih seen y hy
    · rw [mergeFilter, if_neg h] at hy
      push_neg at h
      rcases List.mem_cons.mp hy with rfl | hy'
      · refine ⟨h.1, fun s hs => ?_⟩
        have := h.2 s hs
        simpa using this
      · have hrec := ih _ y hy'
        refine ⟨fun hc => hrec.1 (List.mem_cons_of_mem _ hc),
                fun s hs => hrec.2 s (List.mem_cons_of_mem _ hs)⟩

/-- Along the output of the dedup loop, a later finding never repeats an
earlier target and is never a parent of an earlier target. -/
lemma mergeFilter_pairwise :
    ∀ (l : List Finding) (seen : List Str),
      List.Pairwise (fun x y => y.target ≠ x.target ∧ isParentOf y.target x.target = false)
        (mergeFilter l seen) := by
  intro l
  induction l with
  | nil => intro seen; simp [mergeFilter]
  | cons f fs ih =>
    intro seen
    by_cases h : f.target ∈ seen ∨ ∃ s ∈ seen, isParentOf f.target s = true
    · rw [mergeFilter, if_pos h]; exact ih seen
    · rw [mergeFilter, if_neg h]
      refine List.Pairwise.cons (fun y hy => ?_) (ih _)
      have hns := mergeFilter_not_seen fs (f.target :: seen) y hy
      exact ⟨fun he => hns.1 (he ▸ List.mem_cons_self _ _),
             hns.2 f.target (List.mem_cons_self _ _)⟩

/-- A list that already satisfies the dedup loop's invariants passes through
it unchanged. -/
lemma mergeFilter_id :
    ∀ (l : List Finding) (seen : List Str),
      (∀ y ∈ l, y.target ∉ seen ∧ ∀ s ∈ seen, isParentOf y.target s = false) →
      List.Pairwise (fun x y => y.target ≠ x.target ∧ isParentOf y.target x.target = false) l →
      mergeFilter l seen = l := by
  intro l
  induction l with
  | nil => intro seen _ _; simp [mergeFilter]
  | cons f fs ih =>
    intro seen hseen hpw
    have hf := hseen f (List.mem_cons_self _ _)
    have hcond : ¬ (f.target ∈ seen ∨ ∃ s ∈ seen, isParentOf f.target s = true) := by
      push_neg
      exact ⟨hf.1, fun s hs => by simp [hf.2 s hs]⟩
    rw [mergeFilter, if_neg hcond]
    congr 1
    apply ih
    · intro y hy
      have hys := hseen y (List.mem_cons_of_mem _ hy)
      have hpair := (List.pairwise_cons.mp hpw).1 y hy
      constructor
      · intro hc
        rcases List.mem_cons.mp hc with he | hin
        · exact hpair.1 he
        · exact hys.1 hin
      · intro s hs
        rcases List.mem_cons.mp hs with rfl | hin
        · exact hpair.2
        · exact hys.2 s hin
    · exact (List.pairwise_cons.mp hpw).2

lemma countSep_append (a b : Str) : countSep (a ++ b) = countSep a + countSep b := by
  induction a with
  | nil => simp [countSep]
  | cons c cs ih => simp [countSep, ih]; omega

/-- A parent (in the `target + "/"` string-prefix sense) has strictly fewer
path separators than its descendant. -/
lemma countSep_lt_of_isParentOf {t s : Str} (h : isParentOf t s = true) :
    countSep t < countSep s := by
  unfold isParentOf at h
  rcases List.isPrefixOf_iff_prefix.mp h with ⟨r, rfl⟩
  rw [countSep_append, countSep_append]
  simp [countSep]
  omega

/-- The symmetric separation relation the merge invariant asserts: distinct
targets, neither a path-prefix ancestor of the other. -/
def Separated (a b : Finding) : Prop :=
  a.target ≠ b.target ∧ isParentOf a.target b.target = false ∧ isParentOf b.target a.target = false

lemma separated_symm : Symmetric Separated := by
  intro a b h
  exact ⟨h.1.symm, h.2.2, h.2.1⟩

/-- The surviving findings of the dedup loop applied to a depth-sorted list
are pairwise separated. -/
lemma merge_unique_pairwise (L : List Finding) :
    List.Pairwise Separated (merge_unique L) := by
  have hsorted : List.Sorted RDepth (List.insertionSort RDepth L) :=
    List.sorted_insertionSort RDepth L
  have hdepth : List.Pairwise RDepth (merge_unique L) :=
    hsorted.sublist (mergeFilter_sublist _ [])
  have hlater := mergeFilter_pairwise (List.insertionSort RDepth L) []
  have hand := List.pairwise_and_iff.mpr ⟨hdepth, hlater⟩
  refine hand.imp ?_
  intro a b hab
  rcases hab with ⟨hd, hne, hp⟩
  refine ⟨hne.symm, ?_, hp⟩
  cases hpar : isParentOf a.target b.target with
  | false => rfl
  | true =>
    exfalso
    have hlt := countSep_lt_of_isParentOf hpar
    rcases hd with hlt' | ⟨heq, _⟩
    · exact absurd hlt' (by unfold depth; omega)
    · exact absurd heq (by unfold depth; omega)

/-- Sample findings used in the concrete merge scenarios. -/
def exSmall : Finding :=
  ⟨strOf "~/small.bin", strOf "file", 100, 1, 0, [], strOf "skip", strOf "Large file, re-download if needed", none, none, none⟩

def exMed : Finding :=
  ⟨strOf "~/sub/medium.bin", strOf "file", 2000, 1, 0, [], strOf "skip", strOf "Large file, re-download if needed", none, none, none⟩

def exBig : Finding :=
  ⟨strOf "~/large.bin", strOf "file", 10000, 1, 0, [], strOf "skip", strOf "Large file, re-download if needed", none, none, none⟩

def exParent : Finding :=
  ⟨strOf "~/proj", strOf "file", 5000, 12, 3, [], strOf "skip", strOf "Large file, re-download if needed", none, none, none⟩

def exChild : Finding :=
  ⟨strOf "~/proj/node_modules", strOf "node", 3000, 9, 3, [], strOf "skip", strOf "npm install", none, none, none⟩

def exDupA : Finding :=
  ⟨strOf "~/duplicate.bin", strOf "file", 1000, 1, 0, [], strOf "skip", strOf "Large file, re-download if needed", none, none, none⟩

def exDupB : Finding :=
  ⟨strOf "~/duplicate.bin", strOf "node", 1000, 1, 0, [], strOf "skip", strOf "npm install", none, none, none⟩

/-- C1: for every collection of phase findings, the merged report has pairwise
distinct targets, no surviving target is a path-prefix ancestor (target plus a
separator is a prefix) of another surviving target, and in the concrete
parent/child and duplicate-target scenarios the child survives, the parent is
dropped, and the duplicate collapses to one finding. -/
theorem C1_merge_unique_and_unnested :
    (∀ L : List Finding, List.Pairwise Separated (merge_results L).findings)
    ∧ (merge_results ([exParent] ++ [exChild])).findings = [exChild]
    ∧ (merge_results ([exDupA] ++ [exDupB])).item_count = 1 := by
  refine ⟨?_, by rfl, by rfl⟩
  intro L
  have hperm : List.Perm (List.insertionSort RSize (merge_unique L)) (merge_unique L) :=
    List.perm_insertionSort RSize _
  have := (hperm.pairwise_iff (fun h => separated_symm h)).mpr (merge_unique_pairwise L)
  exact this

/-- C5: the merged report's findings are sorted by `size_bytes` descending and
its `total_reclaimable_bytes` is the sum of the surviving findings' sizes; in
the concrete three-phase scenario with sizes 100, 2000 and 10000 the order is
[10000, 2000, 100] and the total is 12100. -/
theorem C5_merge_sorted_and_total :
    (∀ L : List Finding,
        List.Pairwise (fun a b => b.size_bytes ≤ a.size_bytes) (merge_results L).findings
        ∧ (merge_results L).total_reclaimable_bytes
            = ((merge_results L).findings.map Finding.size_bytes).sum)
    ∧ (merge_results ([exSmall] ++ [exMed] ++ [exBig])).findings = [exBig, exMed, exSmall]
    ∧ (merge_results ([exSmall] ++ [exMed] ++ [exBig])).total_reclaimable_bytes = 12100 := by
  refine ⟨?_, by rfl, by rfl⟩
  intro L
  constructor
  · have hs : List.Sorted RSize (List.insertionSort RSize (merge_unique L)) :=
      List.sorted_insertionSort RSize _
    exact hs.imp (fun h => h)
  · rfl

/-- C9: merging is idempotent — running the merge pipeline (depth-descending
stable sort, dedup/nested-path filter, size-descending stable sort) on the
findings of a merged report reproduces that report exactly, total included. -/
theorem C9_merge_idempotent :
    ∀ L : List Finding, merge_results ((merge_results L).findings) = merge_results L := by
  intro L
  have hcomp : ∀ a b : Finding, RDepth a b → RDepth b a → RSize a b := by
    intro a b h1 h2
    unfold RDepth at h1 h2
    unfold RSize
    omega
  have hsorted : List.Sorted RDepth (List.insertionSort RDepth L) :=
    List.sorted_insertionSort RDepth L
  have hU : List.Sorted RDepth (merge_unique L) :=
    hsorted.sublist (mergeFilter_sublist _ [])
  have h2 : List.insertionSort RDepth (List.insertionSort RSize (merge_unique L))
      = List.insertionSort RDepth (merge_unique L) :=
    insertionSort_insertionSort RDepth RSize hcomp _
  have h3 : List.insertionSort RDepth (merge_unique L) = merge_unique L :=
    hU.insertionSort_eq
  have h4 : mergeFilter (merge_unique L) [] = merge_unique L := by
    apply mergeFilter_id
    · intro y _
      exact ⟨by simp, by simp⟩
    · exact mergeFilter_pairwise _ []
  have key : merge_findings (merge_findings L) = merge_findings L := by
    show List.insertionSort RSize
        (mergeFilter (List.insertionSort RDepth (List.insertionSort RSize (merge_unique L))) [])
      = merge_findings L
    rw [h2, h3, h4]
    rfl
  simp only [merge_results]
  rw [key]

/-- `_is_excluded` (dcc-scout.py lines 145-152): a path is excluded when its
string starts with the expanded string of any configured exclusion path —
a raw string-prefix test with no path-separator boundary check. -/
def _is_excluded (home : Str) (exclude_paths : List Str) (path : Str) : Bool :=
  exclude_paths.any (fun excl => (expanduser home excl).isPrefixOf path)

/-- `_is_cloud_only` (dcc-scout.py lines 154-171).  `statOf` abstracts
`path.stat()`, returning `(st_size, st_blocks)` on success and `none` when the
call raises `OSError` (in which case the function returns `False`).  The
Python comparison `actual_blocks < apparent_size * 0.01` is embedded as the
exact rational comparison `actual * 100 < apparent`. -/
def _is_cloud_only (statOf : Str → Option (Nat × Nat)) (path : Str) : Bool :=
  match statOf path with
  | none => false
  | some st => if 1000000 < st.1 ∧ st.2 * 512 * 100 < st.1 then true else false

/-- The final `/`-separated component of a path string. -/
def basename (p : Str) : Str := (p.reverse.takeWhile (· ≠ '/')).reverse

/-- Python `Path(p).suffix`: the final extension of the last component,
including the dot; empty when the name has no dot or only a leading dot. -/
def suffixOf (p : Str) : Str :=
  let name := basename p
  let afterDot := name.reverse.takeWhile (· ≠ '.')
  if afterDot.length = name.length then []
  else if afterDot.length + 1 = name.length then []
  else '.' :: afterDot.reverse

/-- `path.suffix.lower()` as used by the large-files classifier. -/
def lowerSuffix (p : Str) : Str := (suffixOf p).map Char.toLower

/-- The extension/keyword classification of `scan_large_files`
(dcc-scout.py lines 449-470): returns `(category, reason)`. -/
def classify_large_file (path : Str) : Str × Str :=
  let suffix := lowerSuffix path
  let base :=
    if suffix ∈ [strOf ".iso", strOf ".dmg", strOf ".pkg"] then
      (strOf "file", strOf "Installer image, re-download if needed")
    else if suffix ∈ [strOf ".zip", strOf ".tar", strOf ".gz", strOf ".7z", strOf ".rar"] then
      (strOf "archive", strOf "Archive file")
    else if suffix ∈ [strOf ".gguf", strOf ".bin", strOf ".safetensors", strOf ".pt", strOf ".onnx"] then
      (strOf "model", strOf "LLM/ML model, re-download if needed")
    else if suffix ∈ [strOf ".mp4", strOf ".mov", strOf ".avi", strOf ".mkv"] then
      (strOf "file", strOf "Video file")
    else if List.IsInfix (strOf "backup") (path.map Char.toLower) then
      (strOf "backup", strOf "Backup file")
    else
      (strOf "file", strOf "Large file, re-download if needed")
  if suffix ∈ [strOf ".qcow2", strOf ".vmdk", strOf ".vdi", strOf ".raw"] then
    (base.1, strOf "VM disk image - verify not in use")
  else base

/-- Per-candidate body of `scan_large_files` (dcc-scout.py lines 423-494).
Candidate enumeration (`fd` / `rglob`) is environmental and abstracted away;
this processes one candidate path.  `statOf` abstracts `path.stat()` as
`(st_size, st_blocks)`, `none` for an `OSError` (which the loop catches and
skips).  `min_bytes` is `large_file_min_gb * 1e9` (exact for integer GB).
The float estimates `int(size * 0.7)` and the cloud test `apparent * 0.01`
are embedded as exact integer arithmetic. -/
def scan_large_file (home : Str) (exclude_paths snoozed : List Str)
    (statOf : Str → Option (Nat × Nat)) (stalenessOf : Str → Nat)
    (min_bytes : Nat) (path : Str) : Option Finding :=
  if _is_excluded home exclude_paths path then none else
  match statOf path with
  | none => none
  | some st =>
    let apparent := st.1
    let size := st.2 * 512
    if 1000000 < apparent ∧ size * 100 < apparent then none else
    if size < min_bytes then none else
    let target := strReplace path home (strOf "~")
    if target ∈ snoozed then none else
    let staleness := stalenessOf path
    let cr := classify_large_file path
    let suffix := lowerSuffix path
    let options :=
      if suffix ∈ [strOf ".zip", strOf ".gz", strOf ".7z", strOf ".dmg", strOf ".rar", strOf ".xz"] then
        [⟨strOf "delete", size, false⟩]
      else
        [⟨strOf "delete", size, false⟩, ⟨strOf "compress", size * 7 / 10, true⟩]
    some (make_finding home target cr.1 size 1 staleness cr.2 options
      (if 90 < staleness then strOf "delete" else strOf "skip") none none none)

/-- Per-artifact body of `scan_build_artifacts` (dcc-scout.py lines 547-618)
for one matched marker file and one configured artifact directory name.
`isDir` abstracts `artifact_path.exists() and artifact_path.is_dir()`,
`dirSize` abstracts `_get_dir_size_fast` as `(size_bytes, file_count)`, and
`stalenessOf` abstracts `_get_staleness_days`.  The size floor `10 * 1e6`
is exactly 10000000; `int(size * 0.8)` is embedded as `size * 8 / 10`. -/
def scan_build_artifact (home : Str) (exclude_paths snoozed : List Str)
    (isDir : Str → Bool) (dirSize : Str → Nat × Nat) (stalenessOf : Str → Nat)
    (stale_days : Nat) (marker_path artifact_name category restore_hint : Str) :
    Option Finding :=
  if _is_excluded home exclude_paths marker_path then none else
  let project_dir := dirname marker_path
  let artifact_path := project_dir ++ strOf "/" ++ artifact_name
  if isDir artifact_path = false then none else
  let target := strReplace artifact_path home (strOf "~")
  if target ∈ snoozed then none else
  let sz := dirSize artifact_path
  if sz.1 < 10000000 then none else
  let staleness := stalenessOf artifact_path
  let options := [⟨strOf "delete", sz.1, false⟩, ⟨strOf "compress", sz.1 * 8 / 10, true⟩]
  let recommendation := if stale_days < staleness then strOf "delete" else strOf "skip"
  let project_str := strReplace project_dir home (strOf "~")
  some (make_finding home target category sz.1 sz.2 staleness restore_hint options
    recommendation (some project_str) none none)

/-- Insert thousands separators into a reversed digit string (helper for the
Python format spec `f"{n:,}"`). -/
def group3 : List Char → List Char
  | a :: b :: c :: d :: rest => a :: b :: c :: ',' :: group3 (d :: rest)
  | l => l

/-- Python `f"{n:,}"`: decimal digits with thousands separators. -/
def commaFmt (n : Nat) : Str := (group3 (Nat.toDigits 10 n).reverse).reverse

/-- The gc-savings estimate of `scan_git_repos` (dcc-scout.py line 691):
`int(size * 0.4) if loose_objects > 1000 else int(size * 0.2)`, embedded with
exact integer arithmetic. -/
def gc_estimate (size loose : Nat) : Nat :=
  if 1000 < loose then size * 2 / 5 else size / 5

/-- The recommendation tiers of `scan_git_repos` (dcc-scout.py lines 700-708). -/
def git_recommendation (loose : Nat) : Str :=
  if 5000 < loose then strOf "git-gc"
  else if 1000 < loose then strOf "git-gc"
  else strOf "skip"

/-- The reason text of `scan_git_repos` (dcc-scout.py lines 700-708), with
`f"{loose_objects:,} loose objects"` rendered via `commaFmt`. -/
def git_reason (loose : Nat) : Str :=
  if 5000 < loose then commaFmt loose ++ strOf " loose objects"
  else if 1000 < loose then commaFmt loose ++ strOf " loose objects"
  else strOf "Git repository"

/-- Per-repository body of `scan_git_repos` (dcc-scout.py lines 654-724).
`isDir` abstracts `git_dir.is_dir()`, `dirSize` abstracts
`_get_dir_size_fast`, and `looseOf` abstracts the `git count-objects -v`
probe (0 when the objects dir is missing or the subprocess fails).  The size
floor `100 * 1e6` is exactly 100000000. -/
def scan_git_repo (home : Str) (exclude_paths snoozed : List Str)
    (isDir : Str → Bool) (dirSize : Str → Nat × Nat) (stalenessOf : Str → Nat)
    (looseOf : Str → Nat) (git_dir : Str) : Option Finding :=
  if isDir git_dir = false then none else
  if _is_excluded home exclude_paths git_dir then none else
  let repo_dir := dirname git_dir
  let target := strReplace git_dir home (strOf "~")
  if target ∈ snoozed then none else
  let sz := dirSize git_dir
  if sz.1 < 100000000 then none else
  let staleness := stalenessOf git_dir
  let loose := looseOf git_dir
  let gc_savings := gc_estimate sz.1 loose
  let options : List ActionOption := [⟨strOf "git-gc", gc_savings, false⟩]
  let repo_str := strReplace repo_dir home (strOf "~")
  some (make_finding home target (strOf "git") sz.1 sz.2 staleness (git_reason loose)
    options (git_recommendation loose) (some repo_str) (some loose) (some gc_savings))

/-- One entry of the snooze store's `items` array.  `target`/`expires_at` are
`none` when the JSON object lacks that key (Python raises `KeyError`);
`expires_at = some none` means the key is present but
`datetime.fromisoformat` raises `ValueError` on its value; `some (some t)`
is a successfully parsed timestamp, embedded as an `Int` ordered by time. -/
structure SnoozeItem where
  target : Option Str
  expires_at : Option (Option Int)
deriving DecidableEq

/-- The parsed snooze file: `items` is `none` when the key is absent
(`data.get("items", [])` then defaults to the empty list). -/
structure SnoozeData where
  items : Option (List SnoozeItem)
deriving DecidableEq

/-- The snooze file as `_load_snoozed` observes it: absent, unparsable JSON
(`json.load` raises `JSONDecodeError`), or parsed data. -/
inductive SnoozeFile where
  | missing : SnoozeFile
  | invalidJson : SnoozeFile
  | parsed : SnoozeData → SnoozeFile
deriving DecidableEq

/-- The `for item in data.get("items", [])` loop of `_load_snoozed`
(dcc-scout.py lines 131-139).  A `KeyError` (missing field) is caught by the
surrounding handler, which returns the empty set; a `ValueError` from
`fromisoformat` (malformed timestamp) is NOT in the `except` clause and
propagates, embedded as `Except.error ()`. -/
def snoozeLoop (now : Int) (acc : List Str) : List SnoozeItem → Except Unit (List Str)
  | [] => Except.ok acc
  | ⟨_, none⟩ :: _ => Except.ok []
  | ⟨_, some none⟩ :: _ => Except.error ()
  | ⟨none, some (some expires)⟩ :: rest =>
    if now < expires then Except.ok [] else snoozeLoop now acc rest
  | ⟨some s, some (some expires)⟩ :: rest =>
    if now < expires then snoozeLoop now (acc ++ [s]) rest else snoozeLoop now acc rest

/-- `_load_snoozed` (dcc-scout.py lines 121-139): the set of active snoozed
targets (as an ordered list), or `Except.error ()` when the function raises. -/
def _load_snoozed (now : Int) : SnoozeFile → Except Unit (List Str)
  | SnoozeFile.missing => Except.ok []
  | SnoozeFile.invalidJson => Except.ok []
  | SnoozeFile.parsed d => snoozeLoop now [] (d.items.getD [])

lemma make_finding_recommendation (home target category : Str) (sb fc sd : Nat)
    (reason : Str) (options : List ActionOption) (recommendation : Str)
    (pp : Option Str) (lo gc : Option Nat) :
    (make_finding home target category sb fc sd reason options recommendation pp lo gc).recommendation
      = recommendation := rfl

lemma make_finding_options (home target category : Str) (sb fc sd : Nat)
    (reason : Str) (options : List ActionOption) (recommendation : Str)
    (pp : Option Str) (lo gc : Option Nat) :
    (make_finding home target category sb fc sd reason options recommendation pp lo gc).options
      = options := rfl

lemma make_finding_gc (home target category : Str) (sb fc sd : Nat)
    (reason : Str) (options : List ActionOption) (recommendation : Str)
    (pp : Option Str) (lo gc : Option Nat) :
    (make_finding home target category sb fc sd reason options recommendation pp lo gc).gc_potential_bytes
      = gc := rfl

/-- C2 counterexample: a node project whose `package.json` marker is 100 days
stale while its `node_modules` artifact directory was accessed today
(threshold 30 days).  The claim demands recommendation "delete" (marker is
stale); the code recommends "skip" because it evaluates staleness on the
artifact directory, not the marker. -/
theorem C2_counterexample :
    Option.map Finding.recommendation
      (scan_build_artifact (strOf "/u") [] [] (fun _ => true) (fun _ => (20000000, 5))
        (fun q => if q = strOf "/u/p/package.json" then 100 else 0) 30
        (strOf "/u/p/package.json") (strOf "node_modules") (strOf "node") (strOf "npm install"))
      = some (strOf "skip")
    ∧ 30 < (fun q => if q = strOf "/u/p/package.json" then 100 else 0) (strOf "/u/p/package.json") := by
  exact ⟨by rfl, by decide⟩

/-- C2 (amended): for every emitted build-artifact finding, the
recommendation is "delete" exactly when the staleness of the artifact
directory (not the marker file) exceeds the configured `stale_days`
threshold, and "skip" otherwise. -/
theorem C2_amended_artifact_staleness :
    ∀ (home : Str) (ex sn : List Str) (isDir : Str → Bool) (dirSize : Str → Nat × Nat)
      (stalenessOf : Str → Nat) (stale_days : Nat)
      (marker_path artifact_name category restore_hint : Str) (f : Finding),
      scan_build_artifact home ex sn isDir dirSize stalenessOf stale_days
          marker_path artifact_name category restore_hint = some f →
      (f.recommendation = strOf "delete"
        ↔ stale_days < stalenessOf (dirname marker_path ++ strOf "/" ++ artifact_name)) := by
  intro home ex sn isDir dirSize stalenessOf stale_days marker artifact category hint f h
  simp only [scan_build_artifact] at h
  split_ifs at h with h1 h2 h3 h4 h5
  · obtain rfl := Option.some.inj h
    rw [make_finding_recommendation]
    exact iff_of_true rfl h5
  · obtain rfl := Option.some.inj h
    rw [make_finding_recommendation]
    exact iff_of_false (by decide) h5

theorem C2_amended_witness :
    Option.map Finding.recommendation
      (scan_build_artifact (strOf "/u") [] [] (fun _ => true) (fun _ => (20000000, 5))
        (fun _ => 100) 30 (strOf "/u/p/package.json") (strOf "node_modules") (strOf "node")
        (strOf "npm install")) = some (strOf "delete") := by
  cases hE : scan_build_artifact (strOf "/u") [] [] (fun _ => true) (fun _ => (20000000, 5))
      (fun _ => 100) 30 (strOf "/u/p/package.json") (strOf "node_modules") (strOf "node")
      (strOf "npm install") with
  | none => exact absurd hE (by decide)
  | some f =>
    have h := (C2_amended_artifact_staleness (strOf "/u") [] [] (fun _ => true)
      (fun _ => (20000000, 5)) (fun _ => 100) 30 (strOf "/u/p/package.json")
      (strOf "node_modules") (strOf "node") (strOf "npm install") f hE).mpr (by decide)
    show some f.recommendation = some (strOf "delete")
    rw [h]

/-- C3 counterexample: a 1 GB `.git` directory with 2000 loose objects.
2000 is not above the higher tier (5000), so the claim demands a 20%
estimate (200000000 bytes); the code estimates 40% (400000000 bytes)
because it switches to 40% already above 1000 loose objects. -/
theorem C3_counterexample :
    Option.map Finding.gc_potential_bytes
      (scan_git_repo (strOf "/u") [] [] (fun _ => true) (fun _ => (1000000000, 10))
        (fun _ => 0) (fun _ => 2000) (strOf "/u/r/.git"))
      = some (some 400000000)
    ∧ Option.map Finding.options
        (scan_git_repo (strOf "/u") [] [] (fun _ => true) (fun _ => (1000000000, 10))
          (fun _ => 0) (fun _ => 2000) (strOf "/u/r/.git"))
        = some [⟨strOf "git-gc", 400000000, false⟩]
    ∧ ¬ (400000000 : Nat) = 1000000000 / 5 := by
  exact ⟨by rfl, by rfl, by decide⟩

/-- C3 (amended): for every emitted git-repository finding, the gc estimate
(`gc_potential_bytes` and the `git-gc` option's `reclaim_bytes`) is 40% of
the repository's current size when the loose-object count exceeds 1000 (the
lower tier), and 20% otherwise. -/
theorem C3_amended_gc_estimate :
    ∀ (home : Str) (ex sn : List Str) (isDir : Str → Bool) (dirSize : Str → Nat × Nat)
      (stalenessOf looseOf : Str → Nat) (git_dir : Str) (f : Finding),
      scan_git_repo home ex sn isDir dirSize stalenessOf looseOf git_dir = some f →
      (f.gc_potential_bytes
          = some (if 1000 < looseOf git_dir then (dirSize git_dir).1 * 2 / 5
                  else (dirSize git_dir).1 / 5)
        ∧ f.options
          = [⟨strOf "git-gc",
              (if 1000 < looseOf git_dir then (dirSize git_dir).1 * 2 / 5
               else (dirSize git_dir).1 / 5), false⟩]) := by
  intro home ex sn isDir dirSize stalenessOf looseOf git_dir f h
  simp only [scan_git_repo] at h
  split_ifs at h with h1 h2 h3 h4
  obtain rfl := Option.some.inj h
  rw [make_finding_gc, make_finding_options]
  unfold gc_estimate
  exact ⟨rfl, rfl⟩

theorem C3_amended_witness :
    Option.map Finding.gc_potential_bytes
      (scan_git_repo (strOf "/u") [] [] (fun _ => true) (fun _ => (1000000000, 10))
        (fun _ => 0) (fun _ => 6000) (strOf "/u/r/.git"))
      = some (some 400000000) := by
  cases hE : scan_git_repo (strOf "/u") [] [] (fun _ => true) (fun _ => (1000000000, 10))
      (fun _ => 0) (fun _ => 6000) (strOf "/u/r/.git") with
  | none => exact absurd hE (by decide)
  | some f =>
    have h := (C3_amended_gc_estimate (strOf "/u") [] [] (fun _ => true)
      (fun _ => (1000000000, 10)) (fun _ => 0) (fun _ => 6000) (strOf "/u/r/.git") f hE).1
    show some f.gc_potential_bytes = some (some 400000000)
    rw [h]
    decide

/-- C4 counterexample: a syntactically valid snooze file whose single entry
has a present but malformed `expires_at` timestamp.  The claim demands an
empty active set without raising; `datetime.fromisoformat` raises
`ValueError`, which the `except (json.JSONDecodeError, KeyError)` clause does
not catch, so `_load_snoozed` propagates the exception. -/
theorem C4_counterexample :
    _load_snoozed 0 (SnoozeFile.parsed ⟨some [⟨some (strOf "~/x"), some none⟩]⟩)
      = Except.error () := by rfl

lemma snoozeLoop_wellformed (now : Int) :
    ∀ (items : List SnoozeItem) (acc : List Str),
      (∀ i ∈ items, ∃ s t, i = SnoozeItem.mk (some s) (some (some t))) →
      snoozeLoop now acc items
        = Except.ok (acc ++ items.filterMap (fun i =>
            match i with
            | ⟨some s, some (some t)⟩ => if now < t then some s else none
            | _ => none)) := by
  intro items
  induction items with
  | nil => intro acc _; simp [snoozeLoop]
  | cons i rest ih =>
    intro acc hwf
    obtain ⟨s, t, rfl⟩ := hwf i (List.mem_cons_self _ _)
    have hrest : ∀ j ∈ rest, ∃ s t, j = SnoozeItem.mk (some s) (some (some t)) :=
      fun j hj => hwf j (List.mem_cons_of_mem _ hj)
    by_cases hlt : now < t
    · simp only [snoozeLoop, if_pos hlt, ih (acc ++ [s]) hrest]
      simp [List.filterMap_cons, hlt]
    · simp only [snoozeLoop, if_neg hlt, ih acc hrest]
      simp [List.filterMap_cons, hlt]

/-- C4 (amended): loading the snooze store marks a target active exactly when
its entry's `expires_at` parses and is in the future at load time; expired
entries are treated as absent; an unparsable file, a missing `items` key, or
a missing `expires_at`/`target` field yields an empty active set without
raising; but an entry whose `expires_at` is present and malformed raises an
uncaught `ValueError`. -/
theorem C4_amended_snooze_load :
    (∀ (now : Int) (items : List SnoozeItem),
        (∀ i ∈ items, ∃ s t, i = SnoozeItem.mk (some s) (some (some t))) →
        _load_snoozed now (SnoozeFile.parsed ⟨some items⟩)
          = Except.ok (items.filterMap (fun i =>
              match i with
              | ⟨some s, some (some t)⟩ => if now < t then some s else none
              | _ => none)))
    ∧ (∀ now : Int, _load_snoozed now SnoozeFile.missing = Except.ok [])
    ∧ (∀ now : Int, _load_snoozed now SnoozeFile.invalidJson = Except.ok [])
    ∧ (∀ now : Int, _load_snoozed now (SnoozeFile.parsed ⟨none⟩) = Except.ok [])
    ∧ (∀ (now : Int) (x : Option Str) (rest : List SnoozeItem),
        _load_snoozed now (SnoozeFile.parsed ⟨some (⟨x, none⟩ :: rest)⟩) = Except.ok [])
    ∧ (∀ (now : Int) (x : Option Str) (rest : List SnoozeItem),
        _load_snoozed now (SnoozeFile.parsed ⟨some (⟨x, some none⟩ :: rest)⟩)
          = Except.error ())
    ∧ (∀ (now t : Int) (rest : List SnoozeItem), now < t →
        _load_snoozed now (SnoozeFile.parsed ⟨some (⟨none, some (some t)⟩ :: rest)⟩)
          = Except.ok []) := by
  refine ⟨?_, fun _ => rfl, fun _ => rfl, fun _ => rfl,
    fun _ x _ => by cases x <;> rfl, fun _ x _ => by cases x <;> rfl, ?_⟩
  · intro now items hwf
    have := snoozeLoop_wellformed now items [] hwf
    simpa [_load_snoozed] using this
  · intro now t rest hlt
    show snoozeLoop now [] (⟨none, some (some t)⟩ :: rest) = Except.ok []
    rw [snoozeLoop, if_pos hlt]

theorem C4_amended_witness :
    _load_snoozed 0 (SnoozeFile.parsed ⟨some [⟨some (strOf "~/test/path"), some (some 7)⟩,
        ⟨some (strOf "~/expired/path"), some (some (-1))⟩]⟩)
      = Except.ok [strOf "~/test/path"] := by
  have h := C4_amended_snooze_load.1 0
    [⟨some (strOf "~/test/path"), some (some 7)⟩, ⟨some (strOf "~/expired/path"), some (some (-1))⟩]
    (by
      intro i hi
      rcases List.mem_cons.mp hi with rfl | hi'
      · exact ⟨strOf "~/test/path", 7, rfl⟩
      · rcases List.mem_cons.mp hi' with rfl | hi''
        · exact ⟨strOf "~/expired/path", -1, rfl⟩
        · simp at hi'')
  rw [h]
  rfl

/-- C6: a file is classified as a cloud placeholder exactly when its apparent
size exceeds 1,000,000 bytes and its actual on-disk usage (512-byte blocks)
is below 1% of the apparent size, and every cloud placeholder is excluded
from the large-files phase output. -/
theorem C6_cloud_placeholder :
    (∀ (statOf : Str → Option (Nat × Nat)) (path : Str) (apparent blocks : Nat),
        statOf path = some (apparent, blocks) →
        (_is_cloud_only statOf path = true
          ↔ (1000000 < apparent ∧ blocks * 512 * 100 < apparent)))
    ∧ (∀ (home : Str) (ex sn : List Str) (statOf : Str → Option (Nat × Nat))
         (stalenessOf : Str → Nat) (min_bytes : Nat) (path : Str),
        _is_cloud_only statOf path = true →
        scan_large_file home ex sn statOf stalenessOf min_bytes path = none) := by
  constructor
  · intro statOf path apparent blocks h
    unfold _is_cloud_only
    rw [h]
    dsimp only
    split_ifs with hc
    · exact iff_of_true rfl hc
    · exact iff_of_false (by simp) hc
  · intro home ex sn statOf stalenessOf min_bytes path h
    unfold _is_cloud_only at h
    cases hs : statOf path with
    | none => rw [hs] at h; exact absurd h (by simp)
    | some st =>
      rw [hs] at h
      dsimp only at h
      have hc : 1000000 < st.1 ∧ st.2 * 512 * 100 < st.1 := by
        by_contra hcn
        rw [if_neg hcn] at h
        exact absurd h (by simp)
      unfold scan_large_file
      split_ifs with he
      · rfl
      · rw [hs]
        simp [hc]

theorem C6_witness :
    _is_cloud_only (fun _ => some (2000000, 1)) (strOf "/u/placeholder.bin") = true
    ∧ scan_large_file (strOf "/u") [] [] (fun _ => some (2000000, 1)) (fun _ => 0)
        1000000 (strOf "/u/placeholder.bin") = none := by
  have h1 : _is_cloud_only (fun _ => some (2000000, 1)) (strOf "/u/placeholder.bin") = true :=
    (C6_cloud_placeholder.1 (fun _ => some (2000000, 1)) (strOf "/u/placeholder.bin")
      2000000 1 rfl).mpr (by decide)
  exact ⟨h1, C6_cloud_placeholder.2 (strOf "/u") [] [] (fun _ => some (2000000, 1))
    (fun _ => 0) 1000000 (strOf "/u/placeholder.bin") h1⟩

/-- C10: exclusion matching is a raw string-prefix test on the expanded
exclusion path, with no path-separator boundary check; in particular a
sibling directory that merely shares a name prefix (exclusion `~/proj`,
path `/Users/u/proj2`) is excluded. -/
theorem C10_exclusion_raw_string_match :
    (∀ (home : Str) (exclude_paths : List Str) (path : Str),
        _is_excluded home exclude_paths path = true
          ↔ ∃ e ∈ exclude_paths, (expanduser home e).isPrefixOf path = true)
    ∧ _is_excluded (strOf "/Users/u") [strOf "~/proj"] (strOf "/Users/u/proj2") = true := by
  refine ⟨?_, by rfl⟩
  intro home ex path
  unfold _is_excluded
  exact List.any_eq_true

/-- A YAML/JSON-like value as `yaml.safe_load` produces it for the config
file: strings, integers, booleans, arrays, and string-keyed mappings
(embedded as insertion-ordered association lists with unique keys, matching
Python dict semantics). -/
inductive Yaml where
  | s : Str → Yaml
  | n : Int → Yaml
  | b : Bool → Yaml
  | arr : List Yaml → Yaml
  | obj : List (Str × Yaml) → Yaml

/-- Python `d[k]` lookup (first binding wins; bindings are unique). -/
def dget : List (Str × Yaml) → Str → Option Yaml
  | [], _ => none
  | (k', v) :: rest, k => if k' = k then some v else dget rest k

/-- Python `d[k] = v`: update in place keeping the key's position, append
when the key is new. -/
def dset : List (Str × Yaml) → Str → Yaml → List (Str × Yaml)
  | [], k, v => [(k, v)]
  | (k', v') :: rest, k, v =>
    if k' = k then (k, v) :: rest else (k', v') :: dset rest k v

/-- Python `{**a, **b}`: the entries of `a` updated key-by-key with those
of `b`. -/
def dunion (a b : List (Str × Yaml)) : List (Str × Yaml) :=
  b.foldl (fun m kv => dset m kv.1 kv.2) a

/-- One iteration of the `_load_config` merge loop (dcc-scout.py lines
113-117): a dict value whose key maps to a dict in the accumulated config is
merged field-by-field; any other value replaces the key wholesale.  `none`
embeds the `TypeError` Python raises from `{**config[key], **value}` when the
existing value is not a mapping. -/
def mergeStep : Option (List (Str × Yaml)) → Str × Yaml → Option (List (Str × Yaml))
  | none, _ => none
  | some cfg, (k, v) =>
    match v with
    | Yaml.obj o =>
      match dget cfg k with
      | some (Yaml.obj d) => some (dset cfg k (Yaml.obj (dunion d o)))
      | some _ => none
      | none => some (dset cfg k (Yaml.obj o))
    | _ => some (dset cfg k v)

/-- The merge of `_load_config` (dcc-scout.py lines 106-119): user-supplied
configuration folded over a copy of the defaults.  An absent config file
corresponds to `user = []`, which returns the defaults unchanged. -/
def _load_config (defaults user : List (Str × Yaml)) : Option (List (Str × Yaml)) :=
  user.foldl mergeStep (some defaults)

/-- The value a supplied key ends up with: dict-over-dict merges
field-by-field, anything else replaces. -/
def mergeValue (dflt : Option Yaml) : Yaml → Yaml
  | Yaml.obj o =>
    match dflt with
    | some (Yaml.obj d) => Yaml.obj (dunion d o)
    | _ => Yaml.obj o
  | v => v

/-- Lookup of a nested field: `m[k1][k2]` when `m[k1]` is a mapping. -/
def dget2 (m : List (Str × Yaml)) (k1 k2 : Str) : Option Yaml :=
  match dget m k1 with
  | some (Yaml.obj o) => dget o k2
  | _ => none

/-- `DEFAULT_CONFIG` (dcc-scout.py lines 16-54). -/
def DEFAULT_CONFIG : List (Str × Yaml) := [
  (strOf "scan_paths", Yaml.arr [Yaml.s (strOf "~/")]),
  (strOf "exclude_paths", Yaml.arr [
    Yaml.s (strOf "~/Library/Mobile Documents"),
    Yaml.s (strOf "~/.Trash"),
    Yaml.s (strOf "~/Library/CloudStorage"),
    Yaml.s (strOf "~/Library/Group Containers/UBF8T346G9.OneDriveStandaloneSuite"),
    Yaml.s (strOf "~/.colima"),
    Yaml.s (strOf "~/.lima"),
    Yaml.s (strOf "~/.docker"),
    Yaml.s (strOf "~/.orbstack"),
    Yaml.s (strOf "~/.podman"),
    Yaml.s (strOf "~/Library/Containers/com.docker.docker"),
    Yaml.s (strOf "~/Library/Containers/com.utmapp.UTM"),
    Yaml.s (strOf "~/Library/Containers/dev.kdrag0n.MacVirt"),
    Yaml.s (strOf "~/Virtual Machines.localized"),
    Yaml.s (strOf "~/Parallels"),
    Yaml.s (strOf "~/.vagrant.d/boxes")]),
  (strOf "thresholds", Yaml.obj [
    (strOf "large_file_min_gb", Yaml.n 1),
    (strOf "stale_days", Yaml.n 30),
    (strOf "stale_app_days", Yaml.n 90),
    (strOf "log_file_min_mb", Yaml.n 100)]),
  (strOf "phases", Yaml.obj [
    (strOf "large_files", Yaml.b true),
    (strOf "build_artifacts", Yaml.b true),
    (strOf "git_repos", Yaml.b true),
    (strOf "ollama_models", Yaml.b true),
    (strOf "huggingface_models", Yaml.b true),
    (strOf "applications", Yaml.b true),
    (strOf "library_leftovers", Yaml.b true),
    (strOf "caches", Yaml.b true),
    (strOf "logs", Yaml.b true)])]

lemma dget_dset_self : ∀ (m : List (Str × Yaml)) (k : Str) (v : Yaml),
    dget (dset m k v) k = some v := by
  intro m k v
  induction m with
  | nil => simp [dset, dget]
  | cons kv rest ih =>
    obtain ⟨k', v'⟩ := kv
    by_cases h : k' = k
    · simp [dset, dget, h]
    · simp [dset, dget, h, ih]

lemma dget_dset_ne : ∀ (m : List (Str × Yaml)) (k : Str) (v : Yaml) (k' : Str),
    k' ≠ k → dget (dset m k v) k' = dget m k' := by
  intro m k v k' hne
  induction m with
  | nil => simp [dset, dget, hne.symm]
  | cons kv rest ih =>
    obtain ⟨k2, v2⟩ := kv
    by_cases h : k2 = k
    · subst h
      simp [dset, dget, hne.symm]
    · simp only [dset, if_neg h, dget]
      by_cases h2 : k2 = k'
      · simp [h2]
      · simp [h2, ih]

lemma foldl_mergeStep_none : ∀ user : List (Str × Yaml),
    user.foldl mergeStep none = none := by
  intro user
  induction user with
  | nil => rfl
  | cons kv rest ih => simp [List.foldl_cons, mergeStep, ih]

/-- A successful merge step only rewrites the supplied key. -/
lemma mergeStep_some : ∀ (cfg : List (Str × Yaml)) (k : Str) (v : Yaml)
    (cfg' : List (Str × Yaml)), mergeStep (some cfg) (k, v) = some cfg' →
    ∃ w, cfg' = dset cfg k w := by
  intro cfg k v cfg' h
  cases v with
  | obj o =>
    simp only [mergeStep] at h
    cases hd : dget cfg k with
    | none =>
      rw [hd] at h
      exact ⟨Yaml.obj o, (Option.some.inj h).symm⟩
    | some y =>
      rw [hd] at h
      cases y with
      | obj d => exact ⟨Yaml.obj (dunion d o), (Option.some.inj h).symm⟩
      | s x => exact Option.noConfusion h
      | n x => exact Option.noConfusion h
      | b x => exact Option.noConfusion h
      | arr x => exact Option.noConfusion h
  | s x => exact ⟨Yaml.s x, (Option.some.inj h).symm⟩
  | n x => exact ⟨Yaml.n x, (Option.some.inj h).symm⟩
  | b x => exact ⟨Yaml.b x, (Option.some.inj h).symm⟩
  | arr x => exact ⟨Yaml.arr x, (Option.some.inj h).symm⟩

/-- Keys the user never supplies keep their value across the whole fold. -/
lemma foldl_mergeStep_preserve :
    ∀ (user : List (Str × Yaml)) (cfg merged : List (Str × Yaml)) (k : Str),
      user.foldl mergeStep (some cfg) = some merged →
      k ∉ user.map Prod.fst →
      dget merged k = dget cfg k := by
  intro user
  induction user with
  | nil =>
    intro cfg merged k h _
    rw [Option.some.inj h]
  | cons kv rest ih =>
    intro cfg merged k h hk
    obtain ⟨k', v'⟩ := kv
    have hkk' : k ≠ k' := by
      intro heq
      subst heq
      exact hk (by simp only [List.map_cons]; exact List.mem_cons_self _ _)
    have hkrest : k ∉ rest.map Prod.fst := by
      intro hin
      exact hk (by simp only [List.map_cons]; exact List.mem_cons_of_mem _ hin)
    cases hstep : mergeStep (some cfg) (k', v') with
    | none =>
      rw [List.foldl_cons, hstep, foldl_mergeStep_none] at h
      exact Option.noConfusion h
    | some cfg' =>
      rw [List.foldl_cons, hstep] at h
      obtain ⟨w, rfl⟩ := mergeStep_some cfg k' v' cfg' hstep
      rw [ih _ merged k h hkrest, dget_dset_ne _ _ _ _ hkk']

/-- A key the user supplies (with unique user keys) ends up with exactly the
merge of its default and supplied value. -/
lemma foldl_mergeStep_supplied :
    ∀ (user : List (Str × Yaml)) (cfg merged : List (Str × Yaml)) (k : Str) (v : Yaml),
      (user.map Prod.fst).Nodup →
      (k, v) ∈ user →
      user.foldl mergeStep (some cfg) = some merged →
      dget merged k = some (mergeValue (dget cfg k) v) := by
  intro user
  induction user with
  | nil => intro cfg merged k v _ hmem _; simp at hmem
  | cons kv rest ih =>
    intro cfg merged k v hnd hmem hfold
    obtain ⟨k', v'⟩ := kv
    cases hstep : mergeStep (some cfg) (k', v') with
    | none =>
      rw [List.foldl_cons, hstep, foldl_mergeStep_none] at hfold
      exact Option.noConfusion hfold
    | some cfg' =>
      rw [List.foldl_cons, hstep] at hfold
      rcases List.mem_cons.mp hmem with heq | hmem'
      · injection heq with h1 h2
        subst h1
        subst h2
        have hkrest : k ∉ rest.map Prod.fst := by
          simp only [List.map_cons] at hnd
          exact (List.nodup_cons.mp hnd).1
        rw [foldl_mergeStep_preserve rest cfg' merged k hfold hkrest]
        cases v with
        | obj o =>
          simp only [mergeStep] at hstep
          cases hd : dget cfg k with
          | none =>
            rw [hd] at hstep
            rw [(Option.some.inj hstep).symm, dget_dset_self]
            simp [mergeValue, hd]
          | some y =>
            rw [hd] at hstep
            cases y with
            | obj d =>
              rw [(Option.some.inj hstep).symm, dget_dset_self]
              simp [mergeValue, hd]
            | s x => exact Option.noConfusion hstep
            | n x => exact Option.noConfusion hstep
            | b x => exact Option.noConfusion hstep
            | arr x => exact Option.noConfusion hstep
        | s x =>
          simp only [mergeStep] at hstep
          rw [(Option.some.inj hstep).symm, dget_dset_self]
          rfl
        | n x =>
          simp only [mergeStep] at hstep
          rw [(Option.some.inj hstep).symm, dget_dset_self]
          rfl
        | b x =>
          simp only [mergeStep] at hstep
          rw [(Option.some.inj hstep).symm, dget_dset_self]
          rfl
        | arr x =>
          simp only [mergeStep] at hstep
          rw [(Option.some.inj hstep).symm, dget_dset_self]
          rfl
      · have hkk' : k ≠ k' := by
          intro hcontra
          subst hcontra
          simp only [List.map_cons] at hnd
          exact (List.nodup_cons.mp hnd).1 (List.mem_map.mpr ⟨(k, v), hmem', rfl⟩)
        have hndrest : (rest.map Prod.fst).Nodup := by
          simp only [List.map_cons] at hnd
          exact (List.nodup_cons.mp hnd).2
        obtain ⟨w, rfl⟩ := mergeStep_some cfg k' v' cfg' hstep
        rw [ih _ merged k v hndrest hmem' hfold, dget_dset_ne _ _ _ _ hkk']

/-- C7: the config merge preserves every default top-level key the user does
not supply; a supplied key is replaced (wholesale for non-dict values,
field-by-field for dict-over-dict); and concretely, overriding only
`thresholds.large_file_min_gb` over the shipped defaults leaves
`thresholds.stale_days` at its default 30 while `large_file_min_gb`
becomes 5. -/
theorem C7_config_merge :
    (∀ (defaults user merged : List (Str × Yaml)) (k : Str),
        _load_config defaults user = some merged →
        k ∉ user.map Prod.fst →
        dget merged k = dget defaults k)
    ∧ (∀ (defaults user merged : List (Str × Yaml)) (k : Str) (v : Yaml),
        (user.map Prod.fst).Nodup →
        (k, v) ∈ user →
        _load_config defaults user = some merged →
        dget merged k = some (mergeValue (dget defaults k) v))
    ∧ Option.map
        (fun m => (dget2 m (strOf "thresholds") (strOf "stale_days"),
                   dget2 m (strOf "thresholds") (strOf "large_file_min_gb")))
        (_load_config DEFAULT_CONFIG
          [(strOf "thresholds", Yaml.obj [(strOf "large_file_min_gb", Yaml.n 5)])])
      = some (some (Yaml.n 30), some (Yaml.n 5)) := by
  refine ⟨?_, ?_, by rfl⟩
  · intro defaults user merged k h hk
    exact foldl_mergeStep_preserve user defaults merged k h hk
  · intro defaults user merged k v hnd hmem h
    exact foldl_mergeStep_supplied user defaults merged k v hnd hmem h

/-- The user config of the concrete C7 scenario. -/
def userThresholdOverride : List (Str × Yaml) :=
  [(strOf "thresholds", Yaml.obj [(strOf "large_file_min_gb", Yaml.n 5)])]

instance : Inhabited Yaml := ⟨Yaml.n 0⟩

/-- The merged config of the concrete C7 scenario. -/
def mergedThresholdOverride : List (Str × Yaml) :=
  (_load_config DEFAULT_CONFIG userThresholdOverride).getD []

theorem C7_witness :
    dget mergedThresholdOverride (strOf "scan_paths")
      = dget DEFAULT_CONFIG (strOf "scan_paths") := by
  have hE : _load_config DEFAULT_CONFIG userThresholdOverride
      = some mergedThresholdOverride := rfl
  exact C7_config_merge.1 DEFAULT_CONFIG userThresholdOverride mergedThresholdOverride
    (strOf "scan_paths") hE (by decide)

/-- The recognized system locations of `_needs_sudo`
(cleanup-tui.py line 337). -/
def system_paths : List Str :=
  [strOf "/Applications", strOf "/Library", strOf "/usr", strOf "/opt",
   strOf "/var", strOf "/private"]

/-- The `~`-expansion at the top of `_needs_sudo` (cleanup-tui.py lines
322-325): `str(Path.home()) + target[1:]` when the target starts with `~`. -/
def expand_target (home target : Str) : Str :=
  if (strOf "~").isPrefixOf target then home ++ target.tail else target

/-- `_needs_sudo` (cleanup-tui.py lines 319-342). -/
def _needs_sudo (home target : Str) : Bool :=
  let expanded := expand_target home target
  if home.isPrefixOf expanded then false
  else if target.contains ':' && !((strOf "/").isPrefixOf target) then false
  else system_paths.any (fun sp => sp.isPrefixOf expanded)

/-- Python `s.split(c, 1)` when `c` occurs in `s`, else `("", s)` — the
`org, name` split of the hf-delete branch (cleanup-tui.py line 361). -/
def splitFirst (s : Str) (c : Char) : Str × Str :=
  if s.contains c then (s.takeWhile (· ≠ c), (s.dropWhile (· ≠ c)).tail) else ([], s)

/-- `_get_command_for_action` (cleanup-tui.py lines 345-372): the literal
shell command for an action and whether it must run under sudo. -/
def _get_command_for_action (home : Str) (f : Finding) (action : Str) : Str × Bool :=
  let target := f.target
  let sdo := _needs_sudo home target
  let pfx := if sdo then strOf "sudo " else []
  if action = strOf "ollama-rm" then
    (strOf "ollama rm " ++ strReplace target (strOf "ollama:") [], false)
  else if action = strOf "hf-delete" then
    let model_name := strReplace target (strOf "huggingface:") []
    let parts := splitFirst model_name '/'
    (strOf "rm -rf ~/.cache/huggingface/hub/models--" ++ parts.1 ++ strOf "--" ++ parts.2, false)
  else if action = strOf "git-gc" then
    (pfx ++ strOf "git -C " ++ strReplace target (strOf "/.git") []
      ++ strOf " gc --aggressive --prune=now", sdo)
  else if action = strOf "compress" then
    (pfx ++ strOf "zip -r " ++ target ++ strOf ".zip " ++ target ++ strOf " && "
      ++ pfx ++ strOf "rm -rf " ++ target, sdo)
  else
    (pfx ++ strOf "rm -rf " ++ target, sdo)

/-- C8: `_needs_sudo` reports elevation exactly when the expanded target lies
outside the home directory (not home-prefixed) and under one of the
recognized system locations; and the action-to-command mapping never reports
elevation for a virtual (namespaced, non-path) target — one containing `:`
and not starting with `/`. -/
theorem C8_elevation :
    (∀ home target : Str,
        _needs_sudo home target = true
          ↔ (¬ home.isPrefixOf (expand_target home target) = true
             ∧ ∃ sp ∈ system_paths, sp.isPrefixOf (expand_target home target) = true))
    ∧ (∀ (home : Str) (f : Finding) (action : Str),
        f.target.contains ':' = true → (strOf "/").isPrefixOf f.target = false →
        (_get_command_for_action home f action).2 = false) := by
  constructor
  · intro home target
    unfold _needs_sudo
    by_cases h1 : home.isPrefixOf (expand_target home target) = true
    · rw [if_pos h1]
      constructor
      · intro hc; exact absurd hc (by simp)
      · rintro ⟨hn, _⟩; exact absurd h1 hn
    · rw [if_neg h1]
      by_cases h2 : (target.contains ':' && !((strOf "/").isPrefixOf target)) = true
      · rw [if_pos h2]
        constructor
        · intro hc; exact absurd hc (by simp)
        · rintro ⟨hn, sp, hsp, hpre⟩
          exfalso
          rw [Bool.and_eq_true] at h2
          obtain ⟨hcol, hnotslash⟩ := h2
          have hnotslash' : (strOf "/").isPrefixOf target = false := by
            simpa using hnotslash
          by_cases ht : (strOf "~").isPrefixOf target = true
          · apply h1
            unfold expand_target
            rw [if_pos ht]
            exact List.isPrefixOf_iff_prefix.mpr (List.prefix_append _ _)
          · have hexp' : expand_target home target = target := by
              unfold expand_target; rw [if_neg ht]
            have hall : ∀ q ∈ system_paths, (strOf "/").isPrefixOf q = true := by decide
            have hslash_sp := hall sp hsp
            have hslash_t : (strOf "/").isPrefixOf target = true := by
              rw [← hexp']
              exact List.isPrefixOf_iff_prefix.mpr
                ((List.isPrefixOf_iff_prefix.mp hslash_sp).trans
                  (List.isPrefixOf_iff_prefix.mp hpre))
            rw [hnotslash'] at hslash_t
            exact Bool.noConfusion hslash_t
      · rw [if_neg h2, List.any_eq_true]
        exact ⟨fun hex => ⟨h1, hex⟩, fun h => h.2⟩
  · intro home f action hcol hslash
    have hns : _needs_sudo home f.target = false := by
      unfold _needs_sudo
      by_cases h1 : home.isPrefixOf (expand_target home f.target) = true
      · rw [if_pos h1]
      · rw [if_neg h1, if_pos]
        rw [Bool.and_eq_true]
        exact ⟨hcol, by simp [hslash]⟩
    simp only [_get_command_for_action]
    split_ifs <;> simp [hns]

theorem C8_witness :
    (_get_command_for_action (strOf "/Users/u")
      ⟨strOf "ollama:llama3:8b", strOf "ollama", 5000000000, 10, 40,
        [⟨strOf "ollama-rm", 5000000000, false⟩], strOf "delete", strOf "Model", none, none, none⟩
      (strOf "delete")).2 = false := by
  exact C8_elevation.2 (strOf "/Users/u")
    ⟨strOf "ollama:llama3:8b", strOf "ollama", 5000000000, 10, 40,
      [⟨strOf "ollama-rm", 5000000000, false⟩], strOf "delete", strOf "Model", none, none, none⟩
    (strOf "delete") (by decide) (by decide)

end Dcc
